import Mathlib

set_option maxRecDepth 8000

namespace PoetryExporter

/-! Shallow embedding of `src/poetry/utils/exporter.py` (class `Exporter`).
Pure string helpers mirror the Python string primitives used by the source
(`str.split`, `str.strip`, `str.rstrip`, `"sep".join`, `sorted`), implemented
structurally over `List Char` so every concrete computation reduces in the
kernel. -/

/-- Python `s.split(sep)` for a one-character separator `sep`: splits at every
occurrence, keeping empty pieces (`"".split(":") = [""]`, `"a:".split(":") =
["a", ""]`). -/
def splitCharList (sep : Char) : List Char → List (List Char)
  | [] => [[]]
  | c :: cs =>
    let r := splitCharList sep cs
    if c = sep then [] :: r
    else
      match r with
      | [] => [[c]]
      | g :: gs => (c :: g) :: gs

/-- String version of `splitCharList`. -/
def splitChar (sep : Char) (s : String) : List String :=
  (splitCharList sep s.toList).map (fun cs => String.mk cs)

/-- Python `sep.join(parts)`. -/
def joinSep (sep : String) : List String → String
  | [] => ""
  | [x] => x
  | x :: xs => x ++ sep ++ joinSep sep xs

/-- Concatenation of a list of strings. -/
def concatStrings : List String → String
  | [] => ""
  | x :: xs => x ++ concatStrings xs

/-- Python `s.split(sep, 1)` for a one-character separator: at most one split,
at the first occurrence of the separator. -/
def pySplit1 (sep : Char) (s : String) : List String :=
  match splitChar sep s with
  | [] => []
  | [x] => [x]
  | x :: rest => [x, joinSep (String.singleton sep) rest]

/-- Python `s.strip()` (ASCII whitespace, which is all the source ever feeds
it). -/
def pyStrip (s : String) : String :=
  String.mk (((s.toList.dropWhile Char.isWhitespace).reverse.dropWhile
    Char.isWhitespace).reverse)

/-- Python `s.rstrip("/")`. -/
def rstripSlashes (s : String) : String :=
  String.mk ((s.toList.reverse.dropWhile (fun c => c = '/')).reverse)

/-- Lexicographic (code-point) comparison on character lists; the order Python
`sorted` uses on strings. -/
def lexLe : List Char → List Char → Bool
  | [], _ => true
  | _ :: _, [] => false
  | a :: as, b :: bs =>
    if a.toNat < b.toNat then true
    else if b.toNat < a.toNat then false
    else lexLe as bs

/-- Lexicographic order on strings, as used by Python `sorted`. -/
def strLe (a b : String) : Bool := lexLe a.toList b.toList

/-- Insert into a list sorted by `le`. -/
def insertSortedBy {α : Type} (le : α → α → Bool) (x : α) : List α → List α
  | [] => [x]
  | y :: ys => if le x y then x :: y :: ys else y :: insertSortedBy le x ys

/-- Insertion sort by `le`; models Python `sorted` (on the duplicate-free
lists the source sorts, any comparison sort agrees with it). -/
def sortBy {α : Type} (le : α → α → Bool) : List α → List α
  | [] => []
  | x :: xs => insertSortedBy le x (sortBy le xs)

/-- Python `sorted` on a collection of strings. -/
def sortStrings (l : List String) : List String := sortBy strLe l

/-- Model of Python `set.add`: membership-checked insertion. -/
def insertSet (l : List String) (x : String) : List String :=
  if x ∈ l then l else l ++ [x]

/-- Does `s` start with `pat`? -/
def listStarts (pat s : List Char) : Bool :=
  match pat, s with
  | [], _ => true
  | _ :: _, [] => false
  | p :: ps, c :: cs => p = c && listStarts ps cs

/-- Does `s` contain `pat` as a contiguous sublist? -/
def listHasSub (pat : List Char) : List Char → Bool
  | [] => listStarts pat []
  | c :: cs => listStarts pat (c :: cs) || listHasSub pat cs

/-- Does the string `s` contain `pat` as a substring? -/
def strHasSub (s pat : String) : Bool := listHasSub pat.toList s.toList

/-! ## Data model (§3 of the source's interface: poetry-core objects as the
exporter reads them) -/

/-- Environment-marker expressions as the exporter consumes them: a single
equality clause `name == "value"`, a conjunction (`MultiMarker`) or a
disjunction (`MarkerUnion`) of equality clauses, or the empty/any marker.
The exporter only reads `.only(...)`, `type(...) is MultiMarker`, `.markers`
and each clause's `.value`, so clauses are `(name, value)` pairs. -/
inductive Marker where
  | empty
  | single (name value : String)
  | multi (clauses : List (String × String))
  | union (clauses : List (String × String))
deriving DecidableEq, Repr

/-- A lock-file file record: `{"file": ..., "hash": ...}`. -/
structure FileRecord where
  file : String
  hash : String
deriving DecidableEq, Repr

/-- The resolved package as the exporter reads it (name, stringified version,
develop flag, optional source URL, file records). `version` is kept as the
string `str(package.version)` produces. -/
structure Package where
  name : String
  version : String
  develop : Bool
  source_url : Option String
  files : List FileRecord
deriving DecidableEq, Repr

/-- The abstract dependency as the exporter reads it: its marker, the
canonical requirement string `to_pep_508(with_extras=False)`, and the four
direct-reference predicates. -/
structure Dependency where
  marker : Marker
  pep508 : String
  is_vcs : Bool
  is_url : Bool
  is_file : Bool
  is_directory : Bool
deriving DecidableEq, Repr

/-- One resolved entry from `locker.get_project_dependency_packages`. -/
structure DependencyPackage where
  dependency : Dependency
  package : Package
deriving DecidableEq, Repr

/-- A repository of the pool: plain and authenticated URL. -/
structure Repository where
  url : String
  authenticated_url : String
deriving DecidableEq, Repr

/-- The ordered repository pool; when `has_default` is true its first
repository is the default source. -/
structure Pool where
  repositories : List Repository
  has_default : Bool
deriving DecidableEq, Repr

/-! ## Externals modelled from the spec (code not under `src/`: poetry-core's
marker operations and the standard library's `urllib.parse.urlsplit`). -/

/-- Modelled from the spec: poetry-core's `BaseMarker.only(name)` — missing
from `src/` — projects a marker onto one variable, keeping exactly the
equality clauses on that variable; a projection with no clause is the empty
marker and a projection with one clause is a single marker, so only a
projection with two or more clauses keeps its `MultiMarker`/`MarkerUnion`
shape. -/
def markerOnly (name : String) : Marker → Marker
  | .empty => .empty
  | .single n v => if n = name then .single n v else .empty
  | .multi cs =>
    match cs.filter (fun c => c.1 = name) with
    | [] => .empty
    | [c] => .single c.1 c.2
    | c :: c2 :: rest => .multi (c :: c2 :: rest)
  | .union cs =>
    match cs.filter (fun c => c.1 = name) with
    | [] => .empty
    | [c] => .single c.1 c.2
    | c :: c2 :: rest => .union (c :: c2 :: rest)

/-- Modelled from the spec: poetry-core's
`get_python_constraint_from_marker`, missing from `src/`, derives the
language-version range implied by the marker; no claim checked here depends
on the derived value, only on its stringified presence, so the derivation is
modelled as a simple rendering of the marker's `python_version` clauses. -/
def get_python_constraint_from_marker (m : Marker) : String :=
  match markerOnly "python_version" m with
  | .empty => "*"
  | .single _ v => "==" ++ v
  | .multi cs => joinSep "," (cs.map (fun c => "==" ++ c.2))
  | .union cs => joinSep " || " (cs.map (fun c => "==" ++ c.2))

/-- First split of a string at a separator character: the piece before the
first occurrence and, when the separator occurs, the remainder after it. -/
def splitFirstChar (sep : Char) (s : String) : String × Option String :=
  match splitChar sep s with
  | [] => ("", none)
  | [x] => (x, none)
  | x :: rest => (x, some (joinSep (String.singleton sep) rest))

/-- Modelled from the spec: `urllib.parse.urlsplit(url).scheme`, the part of
the URL before the first colon (empty when there is none). -/
def urlScheme (url : String) : String :=
  match splitFirstChar ':' url with
  | (s, some _) => s
  | (_, none) => ""

/-- Modelled from the spec: `urllib.parse.urlsplit(url).netloc`, the host
part between `//` and the next `/` after the scheme. -/
def urlNetloc (url : String) : String :=
  match splitFirstChar ':' url with
  | (_, some rest) =>
    if rest.toList.take 2 = ['/', '/'] then
      String.mk ((rest.toList.drop 2).takeWhile (fun c => c ≠ '/'))
    else ""
  | (_, none) => ""

/-! ## The exporter itself (translated from `src/poetry/utils/exporter.py`) -/

/-- `Exporter.ACCEPTED_FORMATS`. -/
def ACCEPTED_FORMATS : List String := ["requirements.txt", "json"]

/-- `Exporter.ALLOWED_HASH_ALGORITHMS`. -/
def ALLOWED_HASH_ALGORITHMS : List String := ["sha256", "sha384", "sha512"]

/-- The ASCII apostrophe, as Python prints around tuple elements in
`str.format`. -/
def pyQuote : String := String.singleton (Char.ofNat 39)

/-- Python's rendering of the tuple `ACCEPTED_FORMATS` inside the
invalid-format message. -/
def acceptedFormatsRepr : String :=
  "(" ++ pyQuote ++ "requirements.txt" ++ pyQuote ++ ", " ++ pyQuote ++ "json"
    ++ pyQuote ++ ")"

/-- The hash-normalization step shared by `_export_requirements_txt` and
`_export_json`: `algorithm = "sha256"; if ":" in h: algorithm, h =
h.split(":"); if algorithm not in ALLOWED_HASH_ALGORITHMS: continue;
"{}:{}".format(algorithm, h)`. `h.split(":")` splits at every colon and the
two-name unpacking raises `ValueError` unless the split has exactly two
pieces, so a hash with two or more colons aborts the whole export; that
failure is the `Except.error` case. `Except.ok none` is the suppressed
(`continue`) case. -/
def normalizeHash (h : String) : Except String (Option String) :=
  if h.toList.contains ':' then
    match splitChar ':' h with
    | [algorithm, digest] =>
      if ALLOWED_HASH_ALGORITHMS.contains algorithm then
        Except.ok (some (algorithm ++ ":" ++ digest))
      else Except.ok none
    | _ => Except.error "ValueError: unpacking h.split requires exactly two values"
  else Except.ok (some ("sha256:" ++ h))

/-- `_export_json`'s platform extraction: `sys_platform_marker =
dependency.marker.only("sys_platform"); sys_platform_constraint = None; if
type(sys_platform_marker) is MultiMarker: for m in
sys_platform_marker.markers: sys_platform_constraint = m.value`. The loop
overwrites the constraint, leaving the last clause's value; any projection
that is not exactly a `MultiMarker` leaves `None`. -/
def sysPlatformConstraint (marker : Marker) : Option String :=
  match markerOnly "sys_platform" marker with
  | .multi clauses => clauses.foldl (fun _ c => some c.2) none
  | _ => none

/-- `is_direct_reference = dependency.is_vcs() or dependency.is_url() or
dependency.is_file() or dependency.is_directory()`. -/
def isDirectReference (d : Dependency) : Bool :=
  d.is_vcs || d.is_url || d.is_file || d.is_directory

/-- The requirement-line body of `_export_requirements_txt` (the `line`
value before hash continuation lines are appended). The source first builds
a `"-e "` prefix from `package.develop`, but both following branches assign
`line` (they do not append), so that prefix is dead and never reaches the
output; this translation keeps the assignment semantics. -/
def requirementLineBody (dp : DependencyPackage) : String :=
  let requirement := dp.dependency.pep508
  if isDirectReference dp.dependency then requirement
  else
    let base := dp.package.name ++ "==" ++ dp.package.version
    if requirement.toList.contains ';' then
      let markers := pyStrip ((pySplit1 ';' requirement).getD 1 "")
      if markers ≠ "" then base ++ "; " ++ markers else base
    else base

/-- The text export's hash collection: normalized hashes of the package's
file records in file order, suppressed algorithms dropped, a multi-colon
hash aborting with `ValueError`. -/
def collectHashes : List FileRecord → Except String (List String)
  | [] => Except.ok []
  | f :: rest => do
    let r ← normalizeHash f.hash
    let tail ← collectHashes rest
    match r with
    | some s => pure (s :: tail)
    | none => pure tail

/-- One full requirement line of `_export_requirements_txt`: the line body,
then — when the package has file records and hashes are requested and at
least one hash survives filtering — a ` \\` continuation and one
`    --hash=...` per surviving record, separated by further continuations. -/
def formatLine (withHashes : Bool) (dp : DependencyPackage) :
    Except String String := do
  let line := requirementLineBody dp
  if dp.package.files ≠ [] && withHashes then
    let hashes ← collectHashes dp.package.files
    if hashes.isEmpty then pure line
    else
      pure (line ++ " \\\n"
        ++ joinSep " \\\n" (hashes.map (fun h => "    --hash=" ++ h)))
  else pure line

/-- The loop of `_export_requirements_txt` accumulating
`dependency_lines.add(line)` over the resolved entries. -/
def dependencyLinesAux (withHashes : Bool) (acc : List String) :
    List DependencyPackage → Except String (List String)
  | [] => Except.ok acc
  | dp :: rest => do
    let line ← formatLine withHashes dp
    dependencyLinesAux withHashes (insertSet acc line) rest

/-- The deduplicated set of requirement lines of one text export. -/
def dependencyLinesOf (withHashes : Bool) (packages : List DependencyPackage) :
    Except String (List String) :=
  dependencyLinesAux withHashes [] packages

/-- The `indexes` set of `_export_requirements_txt`: `if not
is_direct_reference and package.source_url: indexes.add(package.source_url)`
(Python truthiness makes an empty source URL falsy). -/
def indexesOf (packages : List DependencyPackage) : List String :=
  packages.foldl
    (fun acc dp =>
      if isDirectReference dp.dependency then acc
      else
        match dp.package.source_url with
        | some u => if u ≠ "" then insertSet acc u else acc
        | none => acc)
    []

/-- One iteration of the `indexes_header` loop of
`_export_requirements_txt`. The repository is the first pool repository
whose URL equals the index URL with trailing slashes stripped; no match
skips the URL. The source compares the match against
`pool.repositories[0]` with `is`; since the match is the first repository
satisfying the URL predicate, it is `repositories[0]` exactly when
`repositories[0]` itself satisfies the predicate, which structural equality
captures. On the default repository the source assigns `indexes_header =
"--index-url ...\\n"` — an assignment, not an append, so it discards
everything accumulated so far. -/
def headerStep (pool : Pool) (withCredentials : Bool) (header index : String) :
    String :=
  match pool.repositories.filter (fun r => r.url = rstripSlashes index) with
  | [] => header
  | repository :: _ =>
    if pool.has_default = true ∧ pool.repositories.head? = some repository then
      "--index-url "
        ++ (if withCredentials then repository.authenticated_url
            else repository.url) ++ "\n"
    else
      let url := if withCredentials then repository.authenticated_url
        else repository.url
      let header1 :=
        if urlScheme url = "http" then
          header ++ "--trusted-host " ++ urlNetloc url ++ "\n"
        else header
      header1 ++ "--extra-index-url " ++ url ++ "\n"

/-- The `indexes_header` block: the header loop over the sorted index
URLs. -/
def indexesHeader (pool : Pool) (withCredentials : Bool)
    (indexes : List String) : String :=
  (sortStrings indexes).foldl (headerStep pool withCredentials) ""

/-- Does the index URL resolve to the pool's default repository (the
condition under which the source emits `--index-url` and `continue`s)? -/
def matchesDefaultB (pool : Pool) (index : String) : Bool :=
  pool.has_default &&
    (match pool.repositories.filter (fun r => r.url = rstripSlashes index) with
     | [] => false
     | repository :: _ => decide (pool.repositories.head? = some repository))

/-- What the header loop appends for an index URL not matching the default
repository: nothing when no repository matches, otherwise a
`--trusted-host` line exactly when the selected URL's scheme is `http`,
always followed by the `--extra-index-url` line. -/
def renderExtraIndex (pool : Pool) (withCredentials : Bool) (index : String) :
    String :=
  match pool.repositories.filter (fun r => r.url = rstripSlashes index) with
  | [] => ""
  | repository :: _ =>
    let url := if withCredentials then repository.authenticated_url
      else repository.url
    (if urlScheme url = "http" then "--trusted-host " ++ urlNetloc url ++ "\n"
     else "")
      ++ ("--extra-index-url " ++ url ++ "\n")

/-- `_export_requirements_txt`: the sorted, deduplicated requirement lines
joined by newlines with a trailing newline, with the index header block and
a blank line prepended when any indexes were collected. -/
def exportRequirementsTxt (pool : Pool) (withHashes withCredentials : Bool)
    (packages : List DependencyPackage) : Except String String := do
  let dependencyLines ← dependencyLinesOf withHashes packages
  let indexes := indexesOf packages
  let content := joinSep "\n" (sortStrings dependencyLines) ++ "\n"
  if indexes.isEmpty then pure content
  else pure (indexesHeader pool withCredentials indexes ++ "\n" ++ content)

/-- Python `dict` assignment `m[k] = v`: overwrite in place when the key
exists, else append. -/
def dictInsert (m : List (String × String)) (k v : String) :
    List (String × String) :=
  if m.any (fun kv => kv.1 = k) then
    m.map (fun kv => if kv.1 = k then (k, v) else kv)
  else m ++ [(k, v)]

/-- The `hashes` dict loop of `_export_json`, keyed by file name. -/
def jsonHashesAux (acc : List (String × String)) :
    List FileRecord → Except String (List (String × String))
  | [] => Except.ok acc
  | f :: rest => do
    let r ← normalizeHash f.hash
    match r with
    | some s => jsonHashesAux (dictInsert acc f.file s) rest
    | none => jsonHashesAux acc rest

/-- One record of `_export_json`'s `dependencies_list`, before
serialization. `version` already holds `str(package.version)` and
`python_version` the stringified constraint. -/
structure DependencyRecord where
  name : String
  version : String
  dev : Bool
  source_url : Option String
  sys_platform : Option String
  python_version : String
  hashes : List (String × String)
deriving DecidableEq, Repr

/-- Building one JSON record from a resolved entry, as `_export_json`'s loop
body does. -/
def makeRecord (withHashes : Bool) (dp : DependencyPackage) :
    Except String DependencyRecord :=
  match (if dp.package.files ≠ [] && withHashes
      then jsonHashesAux [] dp.package.files
      else Except.ok []) with
  | Except.error e => Except.error e
  | Except.ok hashes =>
    Except.ok
      { name := dp.package.name
        version := dp.package.version
        dev := dp.package.develop
        source_url := dp.package.source_url
        sys_platform := sysPlatformConstraint dp.dependency.marker
        python_version := get_python_constraint_from_marker dp.dependency.marker
        hashes := hashes }

/-- `_export_json`'s `dependencies_list`: one record per resolved entry, in
iteration order, no deduplication. -/
def exportJsonRecords (withHashes : Bool) :
    List DependencyPackage → Except String (List DependencyRecord)
  | [] => Except.ok []
  | dp :: rest => do
    let r ← makeRecord withHashes dp
    let rs ← exportJsonRecords withHashes rest
    pure (r :: rs)

/-- JSON string escaping as `json.dumps` performs it on the strings this
exporter emits (quote and backslash; the exporter's data carries no control
characters). -/
def jsonEscape (c : Char) : String :=
  if c = Char.ofNat 34 then "\\\""
  else if c = Char.ofNat 92 then "\\\\"
  else String.singleton c

/-- A JSON string literal. -/
def jsonQuote (s : String) : String :=
  "\"" ++ concatStrings (s.toList.map jsonEscape) ++ "\""

/-- JSON booleans. -/
def dumpsBool : Bool → String
  | true => "true"
  | false => "false"

/-- JSON rendering of an optional string (`None` → `null`). -/
def dumpsOptStr : Option String → String
  | none => "null"
  | some s => jsonQuote s

/-- Sort an association list by key, as `json.dumps(..., sort_keys=True)`
orders object members. -/
def sortPairs (m : List (String × String)) : List (String × String) :=
  sortBy (fun a b => strLe a.1 b.1) m

/-- JSON rendering of the `hashes` object with sorted keys and `json.dumps`
default separators. -/
def dumpsStrMap (m : List (String × String)) : String :=
  "\x7b"
    ++ joinSep ", "
      ((sortPairs m).map (fun kv => jsonQuote kv.1 ++ ": " ++ jsonQuote kv.2))
    ++ "\x7d"

/-- `json.dumps(record, sort_keys=True)` of one dependency record: the seven
keys in sorted order (`dev`, `hashes`, `name`, `python_version`,
`source_url`, `sys_platform`, `version`) with default separators. -/
def dumpsRecord (r : DependencyRecord) : String :=
  "\x7b"
    ++ "\"dev\": " ++ dumpsBool r.dev ++ ", "
    ++ "\"hashes\": " ++ dumpsStrMap r.hashes ++ ", "
    ++ "\"name\": " ++ jsonQuote r.name ++ ", "
    ++ "\"python_version\": " ++ jsonQuote r.python_version ++ ", "
    ++ "\"source_url\": " ++ dumpsOptStr r.source_url ++ ", "
    ++ "\"sys_platform\": " ++ dumpsOptStr r.sys_platform ++ ", "
    ++ "\"version\": " ++ jsonQuote r.version
    ++ "\x7d"

/-- `json.dumps({"dependencies": dependencies_list}, sort_keys=True)`: the
single-key top-level object around the record array, array order
preserved. -/
def dumpsTop (records : List DependencyRecord) : String :=
  "\x7b" ++ jsonQuote "dependencies" ++ ": ["
    ++ joinSep ", " (records.map dumpsRecord) ++ "]\x7d"

/-- The record keys of one JSON dependency record, in the order `sort_keys`
emits them. -/
def recordKeyNames : List String :=
  ["dev", "hashes", "name", "python_version", "source_url", "sys_platform",
   "version"]

/-- `_export_json`: serialize the record list. The `with_credentials`
parameter is accepted (mirroring the source's signature) and never read. -/
def exportJson (withHashes _withCredentials : Bool)
    (packages : List DependencyPackage) : Except String String := do
  let records ← exportJsonRecords withHashes packages
  pure (dumpsTop records)

/-- `Exporter.export`: validate the requested format — any unaccepted format
raises `ValueError` before anything is produced for the output sink — then
dispatch to the format's private method. -/
def runExport (fmt : String) (pool : Pool) (withHashes withCredentials : Bool)
    (packages : List DependencyPackage) : Except String String :=
  if ACCEPTED_FORMATS.contains fmt then
    if fmt = "requirements.txt" then
      exportRequirementsTxt pool withHashes withCredentials packages
    else exportJson withHashes withCredentials packages
  else
    Except.error ("Invalid export format: " ++ fmt ++ ". Valid formats are: "
      ++ acceptedFormatsRepr)

/-! ## Sample data used by witnesses and counterexamples -/

/-- A plain registry dependency with no marker. -/
def fooDep : Dependency := ⟨Marker.empty, "foo (==1.2.3)", false, false, false, false⟩

/-- The spec's §8 example entry: `foo 1.2.3` with one sha256 file hash. -/
def fooEntry : DependencyPackage :=
  ⟨fooDep, ⟨"foo", "1.2.3", false, none, [⟨"foo-1.2.3.whl", "sha256:abc123"⟩]⟩⟩

/-- The same package without file records. -/
def simpleEntry : DependencyPackage := ⟨fooDep, ⟨"foo", "1.2.3", false, none, []⟩⟩

/-- A develop-mode (editable) registry package. -/
def developEntry : DependencyPackage := ⟨fooDep, ⟨"foo", "1.2.3", true, none, []⟩⟩

/-- A develop-mode VCS (direct-reference) package. -/
def developDirectEntry : DependencyPackage :=
  ⟨⟨Marker.empty, "foo @ git+https://example.com/foo.git", true, false, false, false⟩,
   ⟨"foo", "1.2.3", true, none, []⟩⟩

/-- A direct URL reference. -/
def directEntry : DependencyPackage :=
  ⟨⟨Marker.empty, "foo @ https://example.com/foo-1.2.3.whl", false, true, false, false⟩,
   ⟨"foo", "1.2.3", false, none, []⟩⟩

/-- An entry whose single file hash carries two colons. -/
def badHashEntry : DependencyPackage :=
  ⟨fooDep, ⟨"foo", "1.2.3", false, none, [⟨"foo-1.2.3.whl", "sha256:ab:cd"⟩]⟩⟩

/-- A registry package drawn from the custom index `https://a.example/simple`. -/
def alphaEntry : DependencyPackage :=
  ⟨⟨Marker.empty, "alpha (==1.0.0)", false, false, false, false⟩,
   ⟨"alpha", "1.0.0", false, some "https://a.example/simple", []⟩⟩

/-- A registry package drawn from the index `https://c.example/simple`. -/
def betaEntry : DependencyPackage :=
  ⟨⟨Marker.empty, "beta (==2.0.0)", false, false, false, false⟩,
   ⟨"beta", "2.0.0", false, some "https://c.example/simple", []⟩⟩

/-- A pool whose default repository is `https://c.example/simple` and which
also carries `https://a.example/simple`. -/
def poolWithDefault : Pool :=
  ⟨[⟨"https://c.example/simple", "https://user:pw@c.example/simple"⟩,
    ⟨"https://a.example/simple", "https://user:pw@a.example/simple"⟩], true⟩

/-- The same repositories with no default designated. -/
def poolNoDefault : Pool := ⟨poolWithDefault.repositories, false⟩

/-- The record `_export_json` builds for `simpleEntry`. -/
def simpleRecord : DependencyRecord := ⟨"foo", "1.2.3", false, none, none, "*", []⟩

/-! ## Helper lemmas -/

theorem except_bind_error {ε α β : Type} (e : ε) (f : α → Except ε β) :
    (Except.error e >>= f) = Except.error e := rfl

theorem except_bind_ok {ε α β : Type} (a : α) (f : α → Except ε β) :
    (Except.ok a >>= f) = f a := rfl

theorem except_pure {ε α : Type} (a : α) : (pure a : Except ε α) = Except.ok a := rfl

theorem strAppendEmpty : ∀ s : String, s ++ "" = s
  | ⟨d⟩ => congrArg String.mk (List.append_nil d)

theorem strAppendAssoc : ∀ a b c : String, a ++ b ++ c = a ++ (b ++ c)
  | ⟨x⟩, ⟨y⟩, ⟨z⟩ => congrArg String.mk (List.append_assoc x y z)

theorem strEmptyAppend : ∀ s : String, "" ++ s = s
  | ⟨_⟩ => rfl

theorem lexLe_total (a : List Char) : ∀ b, lexLe a b = true ∨ lexLe b a = true := by
  induction a with
  | nil => intro b; left; rfl
  | cons x xs ih =>
    intro b
    cases b with
    | nil => right; rfl
    | cons y ys =>
      by_cases h1 : x.toNat < y.toNat
      · left; simp [lexLe, h1]
      · by_cases h2 : y.toNat < x.toNat
        · right; simp [lexLe, h2]
        · rcases ih ys with h | h
          · left; simp [lexLe, h1, h2, h]
          · right; simp [lexLe, h1, h2, h]

theorem lexLe_trans (a : List Char) :
    ∀ b c, lexLe a b = true → lexLe b c = true → lexLe a c = true := by
  induction a with
  | nil => intro b c _ _; rfl
  | cons x xs ih =>
    intro b c hab hbc
    cases b with
    | nil => simp [lexLe] at hab
    | cons y ys =>
      cases c with
      | nil => simp [lexLe] at hbc
      | cons z zs =>
        simp only [lexLe] at hab hbc ⊢
        by_cases hxy : x.toNat < y.toNat
        · by_cases hyz : y.toNat < z.toNat
          · simp [show x.toNat < z.toNat by omega]
          · by_cases hzy : z.toNat < y.toNat
            · simp [hyz, hzy] at hbc
            · simp [show x.toNat < z.toNat by omega]
        · by_cases hyx : y.toNat < x.toNat
          · simp [hxy, hyx] at hab
          · simp only [if_neg hxy, if_neg hyx] at hab
            by_cases hyz : y.toNat < z.toNat
            · simp [show x.toNat < z.toNat by omega]
            · by_cases hzy : z.toNat < y.toNat
              · simp [hyz, hzy] at hbc
              · simp only [if_neg hyz, if_neg hzy] at hbc
                simp [show ¬ x.toNat < z.toNat by omega,
                  show ¬ z.toNat < x.toNat by omega, ih ys zs hab hbc]

theorem strLe_total (a b : String) : strLe a b = true ∨ strLe b a = true :=
  lexLe_total a.toList b.toList

theorem strLe_trans (a b c : String) :
    strLe a b = true → strLe b c = true → strLe a c = true :=
  lexLe_trans a.toList b.toList c.toList

theorem mem_insertSortedBy {α : Type} (le : α → α → Bool) (x : α) :
    ∀ (l : List α) (z : α), z ∈ insertSortedBy le x l ↔ z = x ∨ z ∈ l := by
  intro l
  induction l with
  | nil => intro z; simp [insertSortedBy]
  | cons y ys ih =>
    intro z
    by_cases h : le x y
    · simp only [insertSortedBy, if_pos h, List.mem_cons]
    · simp only [insertSortedBy, if_neg h, List.mem_cons, ih]
      tauto

theorem perm_insertSortedBy {α : Type} (le : α → α → Bool) (x : α) :
    ∀ l : List α, List.Perm (insertSortedBy le x l) (x :: l) := by
  intro l
  induction l with
  | nil => exact List.Perm.refl _
  | cons y ys ih =>
    by_cases h : le x y
    · simp [insertSortedBy, h]
    · simp only [insertSortedBy, if_neg h]
      exact (ih.cons y).trans (List.Perm.swap x y ys)

theorem perm_sortBy {α : Type} (le : α → α → Bool) :
    ∀ l : List α, List.Perm (sortBy le l) l := by
  intro l
  induction l with
  | nil => exact List.Perm.refl _
  | cons x xs ih =>
    exact (perm_insertSortedBy le x (sortBy le xs)).trans (ih.cons x)

theorem mem_sortBy {α : Type} (le : α → α → Bool) (l : List α) (z : α) :
    z ∈ sortBy le l ↔ z ∈ l :=
  (perm_sortBy le l).mem_iff

theorem nodup_sortBy {α : Type} (le : α → α → Bool) (l : List α) (h : l.Nodup) :
    (sortBy le l).Nodup :=
  (perm_sortBy le l).nodup_iff.mpr h

theorem pairwise_insertSortedBy {α : Type} (le : α → α → Bool)
    (htot : ∀ a b, le a b = true ∨ le b a = true)
    (htrans : ∀ a b c, le a b = true → le b c = true → le a c = true) (x : α) :
    ∀ l : List α, l.Pairwise (fun a b => le a b = true) →
      (insertSortedBy le x l).Pairwise (fun a b => le a b = true) := by
  intro l
  induction l with
  | nil => intro _; simp [insertSortedBy]
  | cons y ys ih =>
    intro hp
    rcases List.pairwise_cons.mp hp with ⟨hy, hys⟩
    by_cases h : le x y
    · simp only [insertSortedBy, if_pos h]
      refine List.pairwise_cons.mpr ⟨?_, hp⟩
      intro z hz
      rcases List.mem_cons.mp hz with rfl | hz
      · exact h
      · exact htrans x y z h (hy z hz)
    · simp only [insertSortedBy, if_neg h]
      refine List.pairwise_cons.mpr ⟨?_, ih hys⟩
      intro z hz
      rcases (mem_insertSortedBy le x ys z).mp hz with rfl | hz
      · rcases htot z y with h1 | h1
        · exact absurd h1 h
        · exact h1
      · exact hy z hz

theorem pairwise_sortBy {α : Type} (le : α → α → Bool)
    (htot : ∀ a b, le a b = true ∨ le b a = true)
    (htrans : ∀ a b c, le a b = true → le b c = true → le a c = true) :
    ∀ l : List α, (sortBy le l).Pairwise (fun a b => le a b = true) := by
  intro l
  induction l with
  | nil => simp [sortBy]
  | cons x xs ih => exact pairwise_insertSortedBy le htot htrans x (sortBy le xs) ih

theorem sortStrings_sorted (l : List String) :
    (sortStrings l).Pairwise (fun a b => strLe a b = true) :=
  pairwise_sortBy strLe strLe_total strLe_trans l

theorem mem_insertSet (l : List String) (x z : String) :
    z ∈ insertSet l x ↔ z ∈ l ∨ z = x := by
  unfold insertSet
  by_cases h : x ∈ l
  · simp only [if_pos h]
    exact ⟨Or.inl, fun hz => hz.elim id (fun e => e ▸ h)⟩
  · simp [if_neg h]

theorem nodup_insertSet (l : List String) (x : String) (h : l.Nodup) :
    (insertSet l x).Nodup := by
  unfold insertSet
  by_cases hx : x ∈ l
  · simpa [if_pos hx] using h
  · simp only [if_neg hx]
    exact List.nodup_append.mpr ⟨h, List.nodup_singleton x,
      fun a ha hax => hx (by simpa using (List.mem_singleton.mp hax) ▸ ha)⟩

theorem dependencyLinesAux_ok (withHashes : Bool) :
    ∀ (packages : List DependencyPackage) (acc lines : List String),
      dependencyLinesAux withHashes acc packages = Except.ok lines →
      (acc.Nodup → lines.Nodup) ∧
      (∀ s, s ∈ lines ↔ s ∈ acc
        ∨ ∃ dp ∈ packages, formatLine withHashes dp = Except.ok s) := by
  intro packages
  induction packages with
  | nil =>
    intro acc lines h
    cases h
    exact ⟨id, fun s => by simp⟩
  | cons dp rest ih =>
    intro acc lines h
    cases hf : formatLine withHashes dp with
    | error e => simp [dependencyLinesAux, hf, except_bind_error] at h
    | ok line =>
      simp only [dependencyLinesAux, hf, except_bind_ok] at h
      rcases ih (insertSet acc line) lines h with ⟨hnd, hmem⟩
      refine ⟨fun ha => hnd (nodup_insertSet acc line ha), fun s => ?_⟩
      rw [hmem s, mem_insertSet]
      simp only [List.mem_cons]
      constructor
      · rintro ((hs | rfl) | ⟨dp2, hdp2, hok⟩)
        · exact Or.inl hs
        · exact Or.inr ⟨dp, Or.inl rfl, hf⟩
        · exact Or.inr ⟨dp2, Or.inr hdp2, hok⟩
      · rintro (hs | ⟨dp2, (rfl | hdp2), hok⟩)
        · exact Or.inl (Or.inl hs)
        · rw [hf] at hok
          exact Or.inl (Or.inr (Except.ok.inj hok).symm)
        · exact Or.inr ⟨dp2, hdp2, hok⟩

theorem headerStep_nondefault (pool : Pool) (withCredentials : Bool)
    (index : String) (h : matchesDefaultB pool index = false) (header : String) :
    headerStep pool withCredentials header index
      = header ++ renderExtraIndex pool withCredentials index := by
  unfold headerStep renderExtraIndex
  unfold matchesDefaultB at h
  cases hf : pool.repositories.filter (fun r => r.url = rstripSlashes index) with
  | nil => simp [strAppendEmpty]
  | cons repository rest =>
    rw [hf] at h
    dsimp only
    simp only [Bool.and_eq_false_iff, decide_eq_false_iff_not] at h
    have hcond : ¬ (pool.has_default = true
        ∧ pool.repositories.head? = some repository) := by
      rintro ⟨h1, h2⟩
      rcases h with h | h
      · exact absurd h1 (by simp [h])
      · exact h h2
    rw [if_neg hcond]
    by_cases hs : urlScheme (if withCredentials then repository.authenticated_url
        else repository.url) = "http"
    · simp only [if_pos hs, strAppendAssoc]
    · simp only [if_neg hs, strEmptyAppend, strAppendAssoc]

theorem foldl_headerStep_nondefault (pool : Pool) (withCredentials : Bool) :
    ∀ (l : List String), (∀ i ∈ l, matchesDefaultB pool i = false) →
      ∀ acc, l.foldl (headerStep pool withCredentials) acc
        = acc ++ concatStrings (l.map (renderExtraIndex pool withCredentials)) := by
  intro l
  induction l with
  | nil => intro _ acc; simp [concatStrings, strAppendEmpty]
  | cons i rest ih =>
    intro h acc
    have hi := h i (List.mem_cons_self i rest)
    have hrest : ∀ j ∈ rest, matchesDefaultB pool j = false :=
      fun j hj => h j (List.mem_cons_of_mem i hj)
    simp only [List.foldl_cons, List.map_cons, concatStrings]
    rw [headerStep_nondefault pool withCredentials i hi acc, ih hrest,
      strAppendAssoc]

theorem makeRecord_fields (withHashes : Bool) (dp : DependencyPackage)
    (r : DependencyRecord) (h : makeRecord withHashes dp = Except.ok r) :
    r.name = dp.package.name ∧ r.version = dp.package.version
    ∧ r.dev = dp.package.develop ∧ r.source_url = dp.package.source_url
    ∧ r.sys_platform = sysPlatformConstraint dp.dependency.marker
    ∧ r.python_version = get_python_constraint_from_marker dp.dependency.marker := by
  unfold makeRecord at h
  cases hh : (if dp.package.files ≠ [] && withHashes
      then jsonHashesAux [] dp.package.files
      else Except.ok []) with
  | error e => rw [hh] at h; simp at h
  | ok hs =>
    rw [hh] at h
    simp only [Except.ok.injEq] at h
    subst h
    exact ⟨rfl, rfl, rfl, rfl, rfl, rfl⟩

theorem exportJsonRecords_spec (withHashes : Bool) :
    ∀ (packages : List DependencyPackage) (records : List DependencyRecord),
      exportJsonRecords withHashes packages = Except.ok records →
      records.length = packages.length ∧
      (∀ i (hp : i < packages.length) (hr : i < records.length),
        makeRecord withHashes (packages.get ⟨i, hp⟩)
          = Except.ok (records.get ⟨i, hr⟩)) ∧
      (∀ r ∈ records, ∃ dp ∈ packages, makeRecord withHashes dp = Except.ok r) := by
  intro packages
  induction packages with
  | nil =>
    intro records h
    cases h
    refine ⟨rfl, ?_, ?_⟩
    · intro i hp _; exact absurd hp (by simp)
    · intro r hr; exact absurd hr (by simp)
  | cons dp rest ih =>
    intro records h
    cases hm : makeRecord withHashes dp with
    | error e => simp [exportJsonRecords, hm, except_bind_error] at h
    | ok r =>
      cases hr : exportJsonRecords withHashes rest with
      | error e => simp [exportJsonRecords, hm, hr, except_bind_ok,
          except_bind_error] at h
      | ok rs =>
        simp only [exportJsonRecords, hm, hr, except_bind_ok, except_pure,
          Except.ok.injEq] at h
        subst h
        rcases ih rs hr with ⟨hlen, hget, hmem⟩
        refine ⟨by simp [hlen], ?_, ?_⟩
        · intro i hp hq
          cases i with
          | zero => exact hm
          | succ n =>
            exact hget n (by simpa using hp) (by simpa using hq)
        · intro r2 hr2
          rcases List.mem_cons.mp hr2 with rfl | hr2
          · exact ⟨dp, List.mem_cons_self dp rest, hm⟩
          · rcases hmem r2 hr2 with ⟨dp2, hdp2, hok⟩
            exact ⟨dp2, List.mem_cons_of_mem dp hdp2, hok⟩

theorem foldl_overwrite_last :
    ∀ (cs : List (String × String)) (init : Option String),
      cs.foldl (fun _ c => some c.2) init
        = match cs.getLast? with
          | some c => some c.2
          | none => init := by
  intro cs
  induction cs with
  | nil => intro init; rfl
  | cons c cs ih =>
    intro init
    cases cs with
    | nil => rfl
    | cons c2 cs2 =>
      simp only [List.foldl_cons]
      rw [List.getLast?_cons_cons]
      simpa using ih (some c.2)

/-! ## Claim theorems -/

/-- C1 (counterexample): the claim asserts every matched non-default
repository's `--trusted-host`/`--extra-index-url` lines survive into the
final header regardless of the default repository's URL being collected.
With indexes `https://a.example/simple` (non-default) and
`https://c.example/simple` (default, sorting after it), the source's
`indexes_header = "--index-url ..."` assignment discards the already
emitted `--extra-index-url` line: the final output contains no
`--extra-index-url` at all even though a matched non-default repository
exists. -/
theorem default_reset_drops_extra_index_lines :
    exportRequirementsTxt poolWithDefault true false [alphaEntry, betaEntry]
      = Except.ok
        "--index-url https://c.example/simple\n\nalpha==1.0.0\nbeta==2.0.0\n"
    ∧ strHasSub
        "--index-url https://c.example/simple\n\nalpha==1.0.0\nbeta==2.0.0\n"
        "--extra-index-url" = false
    ∧ matchesDefaultB poolWithDefault "https://a.example/simple" = false
    ∧ renderExtraIndex poolWithDefault false "https://a.example/simple"
      = "--extra-index-url https://a.example/simple\n" :=
  ⟨rfl, rfl, rfl, rfl⟩

/-- C1 (amended): provided no collected index URL resolves to the pool's
default repository, the header is exactly the concatenation, over the
distinct collected index URLs in sorted order, of each matched repository's
render: a `--trusted-host <host>` line exactly when the selected URL's
scheme is `http`, immediately followed by the `--extra-index-url <url>`
line (and nothing for unmatched URLs). When the default repository's URL is
among the collected indexes, the `--index-url` assignment discards the
lines accumulated before it. -/
theorem extra_index_lines_all_present_without_default_match
    (pool : Pool) (withCredentials : Bool) (indexes : List String)
    (h : ∀ index ∈ indexes, matchesDefaultB pool index = false) :
    indexesHeader pool withCredentials indexes
      = concatStrings ((sortStrings indexes).map
          (renderExtraIndex pool withCredentials))
    ∧ ∀ index ∈ indexes, ∀ repository,
        (pool.repositories.filter (fun r => r.url = rstripSlashes index)).head?
            = some repository →
        renderExtraIndex pool withCredentials index
          = (if urlScheme (if withCredentials then repository.authenticated_url
                else repository.url) = "http"
             then "--trusted-host "
               ++ urlNetloc (if withCredentials then repository.authenticated_url
                   else repository.url) ++ "\n"
             else "")
            ++ ("--extra-index-url "
              ++ (if withCredentials then repository.authenticated_url
                  else repository.url) ++ "\n") := by
  constructor
  · have hsorted : ∀ i ∈ sortStrings indexes, matchesDefaultB pool i = false :=
      fun i hi => h i ((mem_sortBy strLe indexes i).mp hi)
    have hfold := foldl_headerStep_nondefault pool withCredentials
      (sortStrings indexes) hsorted ""
    unfold indexesHeader
    rw [hfold, strEmptyAppend]
  · intro index _ repository hfh
    unfold renderExtraIndex
    cases hf : pool.repositories.filter (fun r => r.url = rstripSlashes index) with
    | nil => rw [hf] at hfh; cases hfh
    | cons r0 rest =>
      rw [hf] at hfh
      have hr0 : r0 = repository := by simpa using hfh
      subst hr0
      dsimp only

/-- C1 (witness): with no default repository designated, the header over two
collected indexes is the sorted concatenation of their extra-index
renders. -/
theorem extra_index_lines_witness :
    (∀ index ∈ ["https://a.example/simple", "https://c.example/simple"],
      matchesDefaultB poolNoDefault index = false)
    ∧ indexesHeader poolNoDefault false
        ["https://a.example/simple", "https://c.example/simple"]
      = concatStrings ((sortStrings
          ["https://a.example/simple", "https://c.example/simple"]).map
            (renderExtraIndex poolNoDefault false)) :=
  ⟨by decide, (extra_index_lines_all_present_without_default_match poolNoDefault
      false ["https://a.example/simple", "https://c.example/simple"]
      (by decide)).1⟩

/-- C2 (code evaluation at the failing input): the source computes a
`"-e "` prefix into `line` when `package.develop` is set, but the following
branch assigns `line` instead of appending, so the rendered line of a
develop-mode package carries no `-e ` prefix — neither for a registry
package nor for a direct reference. -/
theorem develop_prefix_is_discarded :
    formatLine true developEntry = Except.ok "foo==1.2.3"
    ∧ ("foo==1.2.3" : String) ≠ "-e " ++ "foo==1.2.3"
    ∧ formatLine true developDirectEntry
        = Except.ok "foo @ git+https://example.com/foo.git"
    ∧ ("foo @ git+https://example.com/foo.git" : String)
        ≠ "-e " ++ "foo @ git+https://example.com/foo.git" :=
  ⟨rfl, by decide, rfl, by decide⟩

/-- C3 (counterexample): the claim asserts a hash string is split at the
first colon with the digest free to contain further colons and that
non-allow-listed algorithms are suppressed without failing the export; but
`h.split(":")` unpacked into two names raises `ValueError` on
`"sha256:ab:cd"`, and the whole export fails. -/
theorem multi_colon_hash_fails_export :
    normalizeHash "sha256:ab:cd"
      = Except.error "ValueError: unpacking h.split requires exactly two values"
    ∧ normalizeHash "sha256:ab:cd" ≠ Except.ok (some "sha256:ab:cd")
    ∧ exportRequirementsTxt poolNoDefault true false [badHashEntry]
      = Except.error "ValueError: unpacking h.split requires exactly two values" :=
  ⟨rfl, fun h => Except.noConfusion h, rfl⟩

/-- C3 (amended): a hash with no colon normalizes to `sha256:` followed by
the whole string; a hash with exactly one colon splits into algorithm and
digest, rendered `algorithm:digest` when the algorithm is allow-listed and
suppressed otherwise; a hash with two or more colons makes the export fail
with a `ValueError`. -/
theorem hash_normalizer_cases (h a d : String) (rest : List String) :
    (h.toList.contains ':' = false →
      normalizeHash h = Except.ok (some ("sha256:" ++ h)))
    ∧ (h.toList.contains ':' = true → splitChar ':' h = [a, d] →
      normalizeHash h =
        if ALLOWED_HASH_ALGORITHMS.contains a then
          Except.ok (some (a ++ ":" ++ d))
        else Except.ok none)
    ∧ (h.toList.contains ':' = true → splitChar ':' h = a :: d :: rest →
      rest ≠ [] →
      normalizeHash h
        = Except.error "ValueError: unpacking h.split requires exactly two values") := by
  refine ⟨?_, ?_, ?_⟩
  · intro hc
    have hc2 : ':' ∉ h.data := by simpa using hc
    simp [normalizeHash, hc2]
  · intro hc hs
    have hc2 : ':' ∈ h.data := by simpa using hc
    simp [normalizeHash, hc2, hs]
  · intro hc hs hrest
    have hc2 : ':' ∈ h.data := by simpa using hc
    cases rest with
    | nil => exact absurd rfl hrest
    | cons e rest2 => simp [normalizeHash, hc2, hs]

/-- C3 (witness): `md5:ab` has one colon, its algorithm is outside the
allow-list, and it is suppressed without failing. -/
theorem hash_normalizer_cases_witness :
    ("md5:ab" : String).toList.contains ':' = true
    ∧ splitChar ':' "md5:ab" = ["md5", "ab"]
    ∧ normalizeHash "md5:ab" = Except.ok none :=
  ⟨rfl, rfl,
    ((hash_normalizer_cases "md5:ab" "md5" "ab" []).2.1 rfl rfl).trans rfl⟩

/-- C4 (counterexample): the claim asserts a marker whose platform
projection is a single platform-equality clause yields that clause's value,
and that a disjunction also yields its last clause's value; the source only
reads the clauses when the projection is exactly a `MultiMarker`
conjunction, so a single clause and a disjunction both yield `None`. -/
theorem single_platform_clause_yields_null :
    markerOnly "sys_platform" (Marker.single "sys_platform" "linux")
      = Marker.single "sys_platform" "linux"
    ∧ sysPlatformConstraint (Marker.single "sys_platform" "linux") = none
    ∧ markerOnly "sys_platform"
        (Marker.union [("sys_platform", "a"), ("sys_platform", "b")])
      = Marker.union [("sys_platform", "a"), ("sys_platform", "b")]
    ∧ sysPlatformConstraint
        (Marker.union [("sys_platform", "a"), ("sys_platform", "b")]) = none :=
  ⟨rfl, rfl, rfl, rfl⟩

/-- C4 (amended): the emitted platform constraint is the last clause's
literal value exactly when the platform projection of the marker is a
conjunction (`MultiMarker`) of clauses; when the projection is a single
platform-equality clause, a disjunction, or empty, the emitted constraint
is null. -/
theorem sys_platform_projection_cases (m : Marker) :
    (∀ cs, markerOnly "sys_platform" m = Marker.multi cs →
      sysPlatformConstraint m = cs.foldl (fun _ c => some c.2) none
      ∧ (cs ≠ [] → ∃ c, cs.getLast? = some c
          ∧ sysPlatformConstraint m = some c.2))
    ∧ (∀ n v, markerOnly "sys_platform" m = Marker.single n v →
      sysPlatformConstraint m = none)
    ∧ (∀ cs, markerOnly "sys_platform" m = Marker.union cs →
      sysPlatformConstraint m = none)
    ∧ (markerOnly "sys_platform" m = Marker.empty →
      sysPlatformConstraint m = none) := by
  refine ⟨?_, ?_, ?_, ?_⟩
  · intro cs hp
    have h1 : sysPlatformConstraint m = cs.foldl (fun _ c => some c.2) none := by
      simp [sysPlatformConstraint, hp]
    refine ⟨h1, fun hne => ?_⟩
    cases hcl : cs.getLast? with
    | none => exact absurd (List.getLast?_eq_none_iff.mp hcl) hne
    | some c =>
      exact ⟨c, rfl, by rw [h1, foldl_overwrite_last cs none, hcl]⟩
  · intro n v hp; simp [sysPlatformConstraint, hp]
  · intro cs hp; simp [sysPlatformConstraint, hp]
  · intro hp; simp [sysPlatformConstraint, hp]

/-- C4 (witness): a conjunction of two platform clauses projects to a
`MultiMarker` and the emitted constraint is the last clause's value. -/
theorem sys_platform_projection_witness :
    markerOnly "sys_platform"
        (Marker.multi [("sys_platform", "a"), ("sys_platform", "b")])
      = Marker.multi [("sys_platform", "a"), ("sys_platform", "b")]
    ∧ sysPlatformConstraint
        (Marker.multi [("sys_platform", "a"), ("sys_platform", "b")])
      = some "b" :=
  ⟨rfl,
    ((sys_platform_projection_cases
        (Marker.multi [("sys_platform", "a"), ("sys_platform", "b")])).1
      [("sys_platform", "a"), ("sys_platform", "b")] rfl).1.trans rfl⟩

/-- C5: a successful text export's body is the deduplicated set of rendered
requirement lines (membership is exactly "some entry renders to this
line"), joined in lexicographically sorted order with one line each and a
trailing newline; the whole content ends in a newline, and the export is a
pure function of the entry set, so re-running it reproduces the bytes. -/
theorem text_export_sorted_dedup_trailing_newline
    (pool : Pool) (withHashes withCredentials : Bool)
    (packages : List DependencyPackage) (content : String)
    (h : exportRequirementsTxt pool withHashes withCredentials packages
      = Except.ok content) :
    ∃ lines,
      dependencyLinesOf withHashes packages = Except.ok lines
      ∧ (∀ s, s ∈ lines ↔ ∃ dp ∈ packages,
          formatLine withHashes dp = Except.ok s)
      ∧ (sortStrings lines).Pairwise (fun a b => strLe a b = true)
      ∧ (sortStrings lines).Nodup
      ∧ (content = joinSep "\n" (sortStrings lines) ++ "\n"
        ∨ content = indexesHeader pool withCredentials (indexesOf packages)
            ++ "\n" ++ (joinSep "\n" (sortStrings lines) ++ "\n"))
      ∧ ∃ s, content = s ++ "\n" := by
  cases hl : dependencyLinesOf withHashes packages with
  | error e => simp [exportRequirementsTxt, hl, except_bind_error] at h
  | ok lines =>
    have hshape : content = joinSep "\n" (sortStrings lines) ++ "\n"
        ∨ content = indexesHeader pool withCredentials (indexesOf packages)
            ++ "\n" ++ (joinSep "\n" (sortStrings lines) ++ "\n") := by
      simp only [exportRequirementsTxt, hl, except_bind_ok] at h
      by_cases hi : (indexesOf packages).isEmpty = true
      · simp only [if_pos hi, except_pure, Except.ok.injEq] at h
        exact Or.inl h.symm
      · simp only [if_neg hi, except_pure, Except.ok.injEq] at h
        exact Or.inr h.symm
    refine ⟨lines, rfl, ?_, sortStrings_sorted lines, ?_, hshape, ?_⟩
    · intro s
      have hmem := (dependencyLinesAux_ok withHashes packages [] lines hl).2 s
      simpa using hmem
    · exact nodup_sortBy strLe lines
        ((dependencyLinesAux_ok withHashes packages [] lines hl).1 List.nodup_nil)
    · rcases hshape with hc | hc
      · exact ⟨joinSep "\n" (sortStrings lines), hc⟩
      · refine ⟨indexesHeader pool withCredentials (indexesOf packages) ++ "\n"
          ++ joinSep "\n" (sortStrings lines), ?_⟩
        rw [hc]
        exact (strAppendAssoc _ _ _).symm

/-- C5 (witness): the export of the single entry `foo 1.2.3` succeeds with
body `foo==1.2.3\n` and satisfies the body-shape properties. -/
theorem text_export_sorted_witness :
    exportRequirementsTxt poolNoDefault true false [simpleEntry]
      = Except.ok "foo==1.2.3\n"
    ∧ ∃ lines,
        dependencyLinesOf true [simpleEntry] = Except.ok lines
        ∧ (∀ s, s ∈ lines ↔ ∃ dp ∈ [simpleEntry],
            formatLine true dp = Except.ok s)
        ∧ (sortStrings lines).Pairwise (fun a b => strLe a b = true)
        ∧ (sortStrings lines).Nodup
        ∧ (("foo==1.2.3\n" : String) = joinSep "\n" (sortStrings lines) ++ "\n"
          ∨ ("foo==1.2.3\n" : String)
              = indexesHeader poolNoDefault false (indexesOf [simpleEntry])
                ++ "\n" ++ (joinSep "\n" (sortStrings lines) ++ "\n"))
        ∧ ∃ s, ("foo==1.2.3\n" : String) = s ++ "\n" :=
  ⟨rfl, text_export_sorted_dedup_trailing_newline poolNoDefault true false
    [simpleEntry] "foo==1.2.3\n" rfl⟩

/-- C6: a direct-reference entry's line body is the dependency's canonical
requirement string verbatim; a non-direct entry's body is `name==version`,
with the trimmed marker text right of the requirement string's first `;`
appended after `; ` exactly when it is present and non-empty. -/
theorem direct_reference_line_body (dp : DependencyPackage) :
    (isDirectReference dp.dependency = true →
      requirementLineBody dp = dp.dependency.pep508)
    ∧ (isDirectReference dp.dependency = false →
      dp.dependency.pep508.toList.contains ';' = false →
      requirementLineBody dp = dp.package.name ++ "==" ++ dp.package.version)
    ∧ (isDirectReference dp.dependency = false →
      dp.dependency.pep508.toList.contains ';' = true →
      requirementLineBody dp =
        (if pyStrip ((pySplit1 ';' dp.dependency.pep508).getD 1 "") ≠ "" then
          dp.package.name ++ "==" ++ dp.package.version ++ "; "
            ++ pyStrip ((pySplit1 ';' dp.dependency.pep508).getD 1 "")
        else dp.package.name ++ "==" ++ dp.package.version)) := by
  refine ⟨?_, ?_, ?_⟩
  · intro hd; simp [requirementLineBody, hd]
  · intro hd hc
    have hc2 : ';' ∉ dp.dependency.pep508.data := by simpa using hc
    simp [requirementLineBody, hd, hc2]
  · intro hd hc
    have hc2 : ';' ∈ dp.dependency.pep508.data := by simpa using hc
    by_cases hm : pyStrip ((pySplit1 ';' dp.dependency.pep508).getD 1 "") = ""
    · simp [requirementLineBody, hd, hc2, hm]
    · simp [requirementLineBody, hd, hc2, hm]

/-- C6 (witness): a direct URL reference renders as its canonical
requirement string, and a plain entry with a marker suffix renders as
`name==version; marker`. -/
theorem direct_reference_line_body_witness :
    isDirectReference directEntry.dependency = true
    ∧ requirementLineBody directEntry = "foo @ https://example.com/foo-1.2.3.whl" :=
  ⟨rfl, (direct_reference_line_body directEntry).1 rfl⟩

/-- C7: when the pool designates a default repository, an index URL
resolving to it is rendered as exactly one `--index-url` line (with the
authenticated URL when credentials are requested, the plain URL otherwise);
and every `--extra-index-url` line the loop can emit belongs to an index
whose matched repository is not the default one. -/
theorem default_repository_index_url_only (pool : Pool) (withCredentials : Bool)
    (hd : pool.has_default = true) :
    (∀ index, matchesDefaultB pool index = true →
      ∃ repository,
        (pool.repositories.filter (fun r => r.url = rstripSlashes index)).head?
            = some repository
        ∧ pool.repositories.head? = some repository
        ∧ ∀ header, headerStep pool withCredentials header index
            = "--index-url "
              ++ (if withCredentials then repository.authenticated_url
                  else repository.url) ++ "\n")
    ∧ (∀ index, matchesDefaultB pool index = false →
      (∀ header, headerStep pool withCredentials header index
          = header ++ renderExtraIndex pool withCredentials index)
      ∧ ∀ repository,
          (pool.repositories.filter (fun r => r.url = rstripSlashes index)).head?
              = some repository →
          pool.repositories.head? ≠ some repository) := by
  constructor
  · intro index hm
    unfold matchesDefaultB at hm
    cases hf : pool.repositories.filter (fun r => r.url = rstripSlashes index) with
    | nil => rw [hf] at hm; simp at hm
    | cons repository rest =>
      rw [hf] at hm
      simp only [Bool.and_eq_true, decide_eq_true_eq] at hm
      refine ⟨repository, rfl, hm.2, fun header => ?_⟩
      unfold headerStep
      rw [hf]
      dsimp only
      rw [if_pos ⟨hd, hm.2⟩]
  · intro index hm
    refine ⟨headerStep_nondefault pool withCredentials index hm, ?_⟩
    intro repository hfh hhead
    unfold matchesDefaultB at hm
    cases hf : pool.repositories.filter (fun r => r.url = rstripSlashes index) with
    | nil => rw [hf] at hfh; cases hfh
    | cons r0 rest =>
      rw [hf] at hfh hm
      have hr0 : r0 = repository := by simpa using hfh
      subst hr0
      simp [hd, hhead] at hm

/-- C7 (witness): the concrete pool with default `https://c.example/simple`
satisfies the default-rendering properties. -/
theorem default_repository_index_url_witness :
    poolWithDefault.has_default = true
    ∧ ((∀ index, matchesDefaultB poolWithDefault index = true →
      ∃ repository,
        (poolWithDefault.repositories.filter
            (fun r => r.url = rstripSlashes index)).head? = some repository
        ∧ poolWithDefault.repositories.head? = some repository
        ∧ ∀ header, headerStep poolWithDefault false header index
            = "--index-url "
              ++ (if false then repository.authenticated_url
                  else repository.url) ++ "\n")
    ∧ (∀ index, matchesDefaultB poolWithDefault index = false →
      (∀ header, headerStep poolWithDefault false header index
          = header ++ renderExtraIndex poolWithDefault false index)
      ∧ ∀ repository,
          (poolWithDefault.repositories.filter
              (fun r => r.url = rstripSlashes index)).head? = some repository →
          poolWithDefault.repositories.head? ≠ some repository)) :=
  ⟨rfl, default_repository_index_url_only poolWithDefault false rfl⟩

/-- C8: any format identifier outside the accepted pair makes `export` fail
with the `ValueError` naming the accepted formats (so nothing reaches the
output sink), while the two accepted identifiers dispatch to their
formatters without that error. -/
theorem unsupported_format_rejected (fmt : String) (pool : Pool)
    (withHashes withCredentials : Bool) (packages : List DependencyPackage) :
    (ACCEPTED_FORMATS.contains fmt = false →
      runExport fmt pool withHashes withCredentials packages
        = Except.error ("Invalid export format: " ++ fmt
            ++ ". Valid formats are: " ++ acceptedFormatsRepr))
    ∧ acceptedFormatsRepr
        = "(" ++ pyQuote ++ "requirements.txt" ++ pyQuote ++ ", " ++ pyQuote
          ++ "json" ++ pyQuote ++ ")"
    ∧ runExport "requirements.txt" pool withHashes withCredentials packages
        = exportRequirementsTxt pool withHashes withCredentials packages
    ∧ runExport "json" pool withHashes withCredentials packages
        = exportJson withHashes withCredentials packages := by
  refine ⟨?_, rfl, rfl, rfl⟩
  intro hf
  have hf2 : fmt ∉ ACCEPTED_FORMATS := by simpa using hf
  simp [runExport, hf2]

/-- C8 (witness): the format `xml` is rejected with the exact message. -/
theorem unsupported_format_witness :
    ACCEPTED_FORMATS.contains "xml" = false
    ∧ runExport "xml" poolNoDefault true false []
        = Except.error ("Invalid export format: " ++ "xml"
            ++ ". Valid formats are: " ++ acceptedFormatsRepr) :=
  ⟨rfl, (unsupported_format_rejected "xml" poolNoDefault true false []).1 rfl⟩

/-- C9: a successful JSON export serializes the single-key object
`{"dependencies": [...]}` whose array holds exactly one record per resolved
entry in iteration order (no deduplication, no sorting), each record
carrying the entry's name, stringified version, develop flag, source URL,
platform constraint, stringified python constraint and hash map, with the
record keys emitted in sorted order. -/
theorem json_export_record_shape (withHashes withCredentials : Bool)
    (packages : List DependencyPackage) (records : List DependencyRecord)
    (h : exportJsonRecords withHashes packages = Except.ok records) :
    exportJson withHashes withCredentials packages
      = Except.ok (dumpsTop records)
    ∧ records.length = packages.length
    ∧ (∀ i (hp : i < packages.length) (hr : i < records.length),
      makeRecord withHashes (packages.get ⟨i, hp⟩)
        = Except.ok (records.get ⟨i, hr⟩))
    ∧ (∀ r ∈ records, ∃ dp ∈ packages,
      r.name = dp.package.name ∧ r.version = dp.package.version
      ∧ r.dev = dp.package.develop ∧ r.source_url = dp.package.source_url
      ∧ r.sys_platform = sysPlatformConstraint dp.dependency.marker
      ∧ r.python_version
          = get_python_constraint_from_marker dp.dependency.marker)
    ∧ dumpsTop records
        = "\x7b" ++ jsonQuote "dependencies" ++ ": ["
          ++ joinSep ", " (records.map dumpsRecord) ++ "]\x7d"
    ∧ recordKeyNames.Pairwise (fun a b => strLe a b = true ∧ a ≠ b) := by
  rcases exportJsonRecords_spec withHashes packages records h with
    ⟨hlen, hget, hmem⟩
  refine ⟨?_, hlen, hget, ?_, rfl, by decide⟩
  · simp [exportJson, h, except_bind_ok, except_pure]
  · intro r hr
    rcases hmem r hr with ⟨dp, hdp, hok⟩
    exact ⟨dp, hdp, makeRecord_fields withHashes dp r hok⟩

/-- C9 (witness): the single entry `foo 1.2.3` yields exactly one record and
the serialized single-key object. -/
theorem json_export_record_witness :
    exportJsonRecords true [simpleEntry] = Except.ok [simpleRecord]
    ∧ exportJson true false [simpleEntry] = Except.ok (dumpsTop [simpleRecord]) :=
  ⟨rfl,
    (json_export_record_shape true false [simpleEntry] [simpleRecord] rfl).1⟩

/-- C10: `_export_json` accepts the `with_credentials` flag but never reads
it, so the JSON export's result — and the dispatched `export` call for the
`json` format — is byte-identical for both flag values on any input. -/
theorem json_export_credentials_independent (withHashes : Bool) (pool : Pool)
    (packages : List DependencyPackage) :
    exportJson withHashes true packages = exportJson withHashes false packages
    ∧ runExport "json" pool withHashes true packages
        = runExport "json" pool withHashes false packages :=
  ⟨rfl, rfl⟩

end PoetryExporter
